import Mathlib

/-!
Verification of the uwatch2 BLE client's packet framing and asynchronous
response reassembly protocol, shallowly embedded from `_uwatch2ble.py` and
`uwatch2lib.py`.  Bytes are modelled as `List Nat` (each element intended in
0..255); Python exceptions are modelled with an explicit error type.
-/

namespace Uwatch2

/-- Errors raised by the client code (Python `WatchError`, `struct.error`,
`AssertionError`, `IndexError`), distinguished by raise site. -/
inductive WatchErr where
  /-- `WatchError`: bytes did not start with the `fe ea 10` magic header. -/
  | badHeader : WatchErr
  /-- `struct.error` from `struct.pack` / `struct.unpack`. -/
  | structError : WatchErr
  /-- `IndexError` from indexing a too-short byte string. -/
  | indexError : WatchErr
  /-- `assert cmd_key == expected_cmd_key` failed. -/
  | assertionError : WatchErr
  /-- `WatchError("Received more bytes than expected")`. -/
  | moreBytesThanExpected : WatchErr
  /-- `WatchError` for an invalid abbreviated day name. -/
  | invalidDayName : WatchErr
deriving DecidableEq, Repr

/-- `struct.pack("B", n)`: one unsigned byte; raises `struct.error` unless
`0 <= n <= 255`.  (`n : Nat` is never negative.) -/
def packB (n : Nat) : Option (List Nat) :=
  if n ≤ 255 then some [n] else none

/-- `struct.pack(">I", n)`: big-endian unsigned 32-bit integer; raises
`struct.error` unless `0 <= n < 2^32`. -/
def packBE_I (n : Nat) : Option (List Nat) :=
  if n < 2 ^ 32 then
    some [n / 2 ^ 24 % 256, n / 2 ^ 16 % 256, n / 2 ^ 8 % 256, n % 256]
  else none

/-- The 3 fixed magic header bytes `fe ea 10`. -/
def magicBytes : List Nat := [0xfe, 0xea, 0x10]

/-- `Uwatch2Ble._gen_header`: `self._get_bytes("fe ea 10") +
struct.pack("B", len(payload_bytes) + 4)`.  `none` models the `struct.error`
raised when the length field does not fit one unsigned byte. -/
def _gen_header (payload_bytes : List Nat) : Option (List Nat) :=
  (packB (payload_bytes.length + 4)).map (fun len_bytes => magicBytes ++ len_bytes)

/-- The chunking loop of `Uwatch2Ble._send_packet`: repeatedly
`buf.read(20)` until the buffer is exhausted, collecting the chunks written
to the characteristic, in order. -/
def chunkBytes (bs : List Nat) : List (List Nat) :=
  if bs = [] then []
  else bs.take 20 :: chunkBytes (bs.drop 20)
termination_by bs.length
decreasing_by
  simp only [List.length_drop]
  cases bs with
  | nil => simp_all
  | cons b bs => simp only [List.length_cons]; omega

/-- `Uwatch2Ble._send_packet`: frames `payload_bytes` with `_gen_header` and
returns the sequence of ≤20-byte chunks written to the command
characteristic.  `none` models the uncaught `struct.error` from framing. -/
def _send_packet (payload_bytes : List Nat) : Option (List (List Nat)) :=
  (_gen_header payload_bytes).map (fun header_bytes => chunkBytes (header_bytes ++ payload_bytes))

/-- `bytes([cmd_key]) + arg_bytes` followed by `_gen_header` framing, as
performed by `_send_raw_cmd` / `_send_packet`: the full packet
`header + payload`.  `none` models `ValueError` from `bytes([cmd_key])`
when the key is not a byte, or `struct.error` from the header pack. -/
def framePacket (cmd_key : Nat) (arg_bytes : List Nat) : Option (List Nat) :=
  if cmd_key ≤ 255 then
    (_gen_header (cmd_key :: arg_bytes)).map
      (fun header_bytes => header_bytes ++ (cmd_key :: arg_bytes))
  else none

/-- `Uwatch2Ble._check_and_parse_header`: raises unless the first 3 bytes are
`fe ea 10`, then returns `struct.unpack("B", pkg_bytes[3:4])[0] - 4` (a
Python int, possibly negative, hence `Int`). -/
def _check_and_parse_header (pkg_bytes : List Nat) : Except WatchErr Int :=
  if pkg_bytes.take 3 ≠ magicBytes then
    Except.error WatchErr.badHeader
  else
    match pkg_bytes.get? 3 with
    | none => Except.error WatchErr.structError
    | some len_byte => Except.ok ((len_byte : Int) - 4)

/-- `uwatch2lib.Uwatch2.set_steps_goal`: `self._send_raw_cmd(0x16, ">I",
steps_int)` — the payload is the command key `0x16` followed by the argument
packed big-endian 4-byte unsigned. -/
def set_steps_goal_payload (steps_int : Nat) : Option (List Nat) :=
  (packBE_I steps_int).map (fun arg_bytes => 0x16 :: arg_bytes)

/-- The chunk writes performed when `set_steps_goal` sends its packet. -/
def set_steps_goal_writes (steps_int : Nat) : Option (List (List Nat)) :=
  (set_steps_goal_payload steps_int).bind _send_packet

/-- The reassembler state carried across notifications on `Uwatch2Ble`:
`_expected_payload_byte_count` (a Python int or `None`, hence
`Option Int` — the code can compute negative values from a short length
byte) and `_acc_payload_bytes`. -/
structure ReassemblerState where
  expected : Option Int
  acc : List Nat
deriving DecidableEq, Repr

/-- `Uwatch2Ble._parse_initial_async_response`: checks and parses the header,
strips the 4 header bytes, unpacks the command key from the first payload
byte (a `struct.error` when the payload is empty), and returns
`(cmd_key, payload_byte_count - 1, payload_bytes[1:])`. -/
def _parse_initial_async_response (pkg_bytes : List Nat) :
    Except WatchErr (Nat × Int × List Nat) :=
  match _check_and_parse_header pkg_bytes with
  | Except.error e => Except.error e
  | Except.ok payload_byte_count =>
      match pkg_bytes.drop 4 with
      | [] => Except.error WatchErr.structError
      | cmd_key :: rest => Except.ok (cmd_key, payload_byte_count - 1, rest)

/-- The length check at the end of `Uwatch2Ble._handle_async_response`: if
the accumulated bytes match the expected count, return them and clear the
expected count; if they exceed it, raise
`WatchError("Received more bytes than expected")`; otherwise return `None`
(keep accumulating).  The state is returned alongside the outcome because
the Python object retains its (mutated) fields when an exception is
raised. -/
def _finish_async_response (st : ReassemblerState) :
    ReassemblerState × Except WatchErr (Option (List Nat)) :=
  match st.expected with
  | some exp =>
      if (st.acc.length : Int) = exp then
        ({ expected := none, acc := st.acc }, Except.ok (some st.acc))
      else if exp < (st.acc.length : Int) then
        (st, Except.error WatchErr.moreBytesThanExpected)
      else
        (st, Except.ok none)
  | none => (st, Except.ok none)

/-- `Uwatch2Ble._handle_async_response`: when no response is in progress
(`expected = none`), the incoming bytes must parse as a fresh header (the
state fields are assigned before the `assert cmd_key == expected_cmd_key`
runs); otherwise the bytes are appended to the accumulation buffer.  Then
the accumulated length is checked against the expected count. -/
def _handle_async_response (expected_cmd_key : Nat) (st : ReassemblerState)
    (recv_pkg_bytes : List Nat) :
    ReassemblerState × Except WatchErr (Option (List Nat)) :=
  match st.expected with
  | none =>
      match _parse_initial_async_response recv_pkg_bytes with
      | Except.error e => (st, Except.error e)
      | Except.ok (cmd_key, exp, payload) =>
          let st2 : ReassemblerState := { expected := some exp, acc := payload }
          if cmd_key = expected_cmd_key then _finish_async_response st2
          else (st2, Except.error WatchErr.assertionError)
  | some exp => _finish_async_response { expected := some exp, acc := st.acc ++ recv_pkg_bytes }

/-- Feeds a list of notification fragments to `_handle_async_response` one
at a time (as the `_get_response` loop does), threading the state and
collecting the per-fragment outcomes; stops at the first raised error. -/
def feedFragments (expected_cmd_key : Nat) (st : ReassemblerState) :
    List (List Nat) → ReassemblerState × Except WatchErr (List (Option (List Nat)))
  | [] => (st, Except.ok [])
  | f :: fs =>
      match _handle_async_response expected_cmd_key st f with
      | (st2, Except.error e) => (st2, Except.error e)
      | (st2, Except.ok out) =>
          match feedFragments expected_cmd_key st2 fs with
          | (st3, Except.error e) => (st3, Except.error e)
          | (st3, Except.ok outs) => (st3, Except.ok (out :: outs))

/-- The decoding used by `get_quick_view_enabled_period` and
`get_dnd_period`: Python `divmod(value, 60)` on a (possibly negative)
signed 16-bit value, i.e. floor division and the matching modulus. -/
def decodeMinutePair (v : Int) : Int × Int := (Int.fdiv v 60, Int.fmod v 60)

/-- Modelled from the spec: the encode direction of the minutes-from-midnight
pair conversion ("converted to/from (hour, minute) via divmod(value, 60)"),
which has no standalone counterpart in the source (the setter commands send
hour and minute as separate bytes). -/
def encodeMinutePair (hour min_ : Int) : Int := hour * 60 + min_

/-- `get_quick_view_enabled_period` / `get_dnd_period` response decoding:
`(*divmod(from_min, 60), *divmod(to_min, 60))` applied to the two signed
16-bit fields unpacked from the payload. -/
def decodePeriodResponse (from_min to_min : Int) : Int × Int × Int × Int :=
  (Int.fdiv from_min 60, Int.fmod from_min 60, Int.fdiv to_min 60, Int.fmod to_min 60)

/-- Python `str.lower()` (ASCII case folding, which is all the day
abbreviations need): lowercase every character of the string. -/
def str_lower (s : String) : String := ⟨s.data.map Char.toLower⟩

/-- `uwatch2lib.DAYS_TUP`. -/
def DAYS_TUP : List String := ["Sun", "Mon", "Tue", "Wed", "Thu", "Fri", "Sat"]

/-- `Uwatch2._parse_alarm_repeat_days`: the ordered tuple of abbreviated day
names whose bit is set in `repeat_days_int` (`repeat_days_int >> day_idx & 1`
for `day_idx` in `range(7)`). -/
def _parse_alarm_repeat_days (repeat_days_int : Nat) : List String :=
  ((List.range 7).filter (fun day_idx => (repeat_days_int >>> day_idx) &&& 1 = 1)).map
    (fun day_idx => DAYS_TUP.getD day_idx "")

/-- `days_lower_tup = tuple(s.lower() for s in DAYS_TUP)`. -/
def days_lower_tup : List String := DAYS_TUP.map str_lower

/-- `Uwatch2._make_alarm_repeat_days_int`: folds over the day names, looking
each lowercased name up in `days_lower_tup` (`WatchError` when absent,
modelled as `none`) and OR-ing `1 << day_idx` into the accumulator. -/
def _make_alarm_repeat_days_int (repeat_days_tup : List String) : Option Nat :=
  repeat_days_tup.foldlM
    (fun repeat_days_int day_str =>
      (days_lower_tup.findIdx? (fun d => d == str_lower day_str)).map
        (fun day_idx => repeat_days_int ||| (1 <<< day_idx)))
    0

section Chunking

theorem chunkBytes_nil : chunkBytes [] = [] := by
  unfold chunkBytes
  simp

theorem chunkBytes_cons (bs : List Nat) (hbs : bs ≠ []) :
    chunkBytes bs = bs.take 20 :: chunkBytes (bs.drop 20) := by
  conv_lhs => rw [chunkBytes]
  rw [if_neg hbs]

theorem chunkBytes_eq_nil_iff (bs : List Nat) : chunkBytes bs = [] ↔ bs = [] := by
  constructor
  · intro h
    by_contra hne
    rw [chunkBytes_cons bs hne] at h
    exact List.cons_ne_nil _ _ h
  · intro h
    simp [h, chunkBytes_nil]

theorem chunkBytes_join (bs : List Nat) : (chunkBytes bs).flatten = bs := by
  induction bs using chunkBytes.induct with
  | case1 => simp [chunkBytes_nil]
  | case2 bs hbs ih =>
    rw [chunkBytes_cons bs hbs, List.flatten_cons, ih]
    exact List.take_append_drop 20 bs

theorem chunkBytes_le_20 (bs : List Nat) :
    (chunkBytes bs).all (fun c => decide (c.length ≤ 20)) = true := by
  induction bs using chunkBytes.induct with
  | case1 => simp [chunkBytes_nil]
  | case2 bs hbs ih =>
    rw [chunkBytes_cons bs hbs]
    simp only [List.all_cons, Bool.and_eq_true, decide_eq_true_eq]
    exact ⟨by simp [List.length_take], ih⟩

theorem chunkBytes_dropLast_eq_20 (bs : List Nat) :
    (chunkBytes bs).dropLast.all (fun c => decide (c.length = 20)) = true := by
  induction bs using chunkBytes.induct with
  | case1 => simp [chunkBytes_nil]
  | case2 bs hbs ih =>
    rw [chunkBytes_cons bs hbs]
    by_cases hrest : bs.drop 20 = []
    · simp [hrest, chunkBytes_nil]
    · have hne : chunkBytes (bs.drop 20) ≠ [] := by
        rw [ne_eq, chunkBytes_eq_nil_iff]
        exact hrest
      rw [List.dropLast_cons_of_ne_nil hne]
      simp only [List.all_cons, Bool.and_eq_true, decide_eq_true_eq]
      constructor
      · rw [List.length_take]
        have h20 : 20 < bs.length := by
          by_contra hle
          push_neg at hle
          exact hrest (List.drop_eq_nil_of_le hle)
        omega
      · exact ih

end Chunking

/-- C2: every sequence of chunks produced by the `_send_packet` write loop
concatenates back to the original packet bytes; every chunk but possibly the
last has length exactly 20; no chunk exceeds 20 bytes; the empty byte string
yields zero chunk writes. -/
theorem send_packet_chunking (bs : List Nat) :
    (chunkBytes bs).flatten = bs ∧
    (chunkBytes bs).dropLast.all (fun c => decide (c.length = 20)) = true ∧
    (chunkBytes bs).all (fun c => decide (c.length ≤ 20)) = true ∧
    chunkBytes [] = [] :=
  ⟨chunkBytes_join bs, chunkBytes_dropLast_eq_20 bs, chunkBytes_le_20 bs, chunkBytes_nil⟩

/-- C7: framing a payload whose length field `len(payload) + 4` exceeds 255
fails (the single unsigned length byte cannot represent it) rather than
producing a packet. -/
theorem gen_header_overflow (payload_bytes : List Nat)
    (h : payload_bytes.length + 4 > 255) :
    _gen_header payload_bytes = none := by
  unfold _gen_header packB
  rw [if_neg (by omega)]
  rfl

/-- Witness for C7 at a concrete 252-byte payload. -/
theorem gen_header_overflow_witness :
    (List.replicate 252 0).length + 4 > 255 ∧ _gen_header (List.replicate 252 0) = none :=
  ⟨by simp only [List.length_replicate]; omega,
    gen_header_overflow (List.replicate 252 0) (by simp only [List.length_replicate]; omega)⟩

section Framing

/-- C3 counterexample: with 251 argument bytes the payload is 252 bytes and
the length field would be 256, which `struct.pack("B", ...)` rejects, so no
packet is produced at all. -/
theorem frame_251_fails : framePacket 0 (List.replicate 251 0) = none := by
  unfold framePacket _gen_header packB
  rw [if_pos (by omega)]
  simp only [List.length_cons, List.length_replicate]
  rw [if_neg (by omega)]
  rfl

/-- C3 (amended): for command keys `k ≤ 255` and argument bytes `p` with
`len(p) ≤ 250`, the framed packet starts with the magic bytes `fe ea 10`,
its fourth byte is `len(p) + 5`, and `_check_and_parse_header` on that
packet returns a payload byte count of `len(p) + 1`. -/
theorem frame_parse_roundtrip (k : Nat) (p : List Nat) (hk : k ≤ 255)
    (hp : p.length ≤ 250) :
    framePacket k p = some (0xfe :: 0xea :: 0x10 :: (p.length + 5) :: k :: p) ∧
    (0xfe :: 0xea :: 0x10 :: (p.length + 5) :: k :: p).take 3 = magicBytes ∧
    _check_and_parse_header (0xfe :: 0xea :: 0x10 :: (p.length + 5) :: k :: p) =
      Except.ok ((p.length : Int) + 1) := by
  refine ⟨?_, by simp [magicBytes, List.take], ?_⟩
  · unfold framePacket _gen_header packB
    rw [if_pos hk]
    simp only [List.length_cons]
    rw [if_pos (by omega)]
    simp [magicBytes]
  · unfold _check_and_parse_header
    rw [if_neg (by simp [magicBytes, List.take])]
    simp only [List.get?]
    congr 1
    push_cast
    ring

/-- Witness for C3 (amended) at `k = 0x16`, `p = [0, 0, 0x0b, 0xb8]`. -/
theorem frame_parse_roundtrip_witness :
    framePacket 0x16 [0, 0, 0x0b, 0xb8]
        = some (0xfe :: 0xea :: 0x10 :: (([0, 0, 0x0b, 0xb8] : List Nat).length + 5)
            :: 0x16 :: [0, 0, 0x0b, 0xb8]) ∧
    (0xfe :: 0xea :: 0x10 :: (([0, 0, 0x0b, 0xb8] : List Nat).length + 5)
        :: 0x16 :: [0, 0, 0x0b, 0xb8]).take 3 = magicBytes ∧
    _check_and_parse_header (0xfe :: 0xea :: 0x10
        :: (([0, 0, 0x0b, 0xb8] : List Nat).length + 5) :: 0x16 :: [0, 0, 0x0b, 0xb8])
      = Except.ok ((([0, 0, 0x0b, 0xb8] : List Nat).length : Int) + 1) :=
  frame_parse_roundtrip 0x16 [0, 0, 0x0b, 0xb8] (by decide) (by decide)

end Framing

section StepsGoal

/-- C8: `set_steps_goal(3000)` produces exactly the payload bytes
`16 00 00 0b b8` and writes exactly the single framed packet
`fe ea 10 09 16 00 00 0b b8` (one chunk, since 9 ≤ 20). -/
theorem set_steps_goal_3000 :
    set_steps_goal_payload 3000 = some [0x16, 0x00, 0x00, 0x0b, 0xb8] ∧
    set_steps_goal_writes 3000
      = some [[0xfe, 0xea, 0x10, 0x09, 0x16, 0x00, 0x00, 0x0b, 0xb8]] := by
  have hch : chunkBytes ([0xfe, 0xea, 0x10, 0x09, 0x16, 0x00, 0x00, 0x0b, 0xb8] : List Nat)
      = [[0xfe, 0xea, 0x10, 0x09, 0x16, 0x00, 0x00, 0x0b, 0xb8]] := by
    rw [chunkBytes_cons _ (by decide)]
    show ([0xfe, 0xea, 0x10, 0x09, 0x16, 0x00, 0x00, 0x0b, 0xb8] : List Nat)
        :: chunkBytes [] = _
    rw [chunkBytes_nil]
  constructor
  · rfl
  · show Option.bind (set_steps_goal_payload 3000) _send_packet = _
    have hpay : set_steps_goal_payload 3000 = some [0x16, 0x00, 0x00, 0x0b, 0xb8] := rfl
    rw [hpay]
    show _send_packet [0x16, 0x00, 0x00, 0x0b, 0xb8] = _
    unfold _send_packet
    have hhdr : _gen_header [0x16, 0x00, 0x00, 0x0b, 0xb8] = some [0xfe, 0xea, 0x10, 0x09] := rfl
    rw [hhdr]
    show some (chunkBytes [0xfe, 0xea, 0x10, 0x09, 0x16, 0x00, 0x00, 0x0b, 0xb8]) = _
    rw [hch]

end StepsGoal

/-- C9: encoding hour 9, minute 1 gives 541; decoding 541 via
`divmod(value, 60)` gives (9, 1); the pair round-trips at the boundary
values (0, 0) and (23, 59); and the period-response decoding applies
exactly this conversion to each of its two signed 16-bit minute fields. -/
theorem minute_pair_conversion :
    encodeMinutePair 9 1 = 541 ∧
    decodeMinutePair 541 = (9, 1) ∧
    decodeMinutePair (encodeMinutePair 0 0) = (0, 0) ∧
    decodeMinutePair (encodeMinutePair 23 59) = (23, 59) ∧
    ∀ from_min to_min : Int,
      decodePeriodResponse from_min to_min
        = ((decodeMinutePair from_min).1, (decodeMinutePair from_min).2,
           (decodeMinutePair to_min).1, (decodeMinutePair to_min).2) :=
  ⟨by decide, by decide, by decide, by decide, fun _ _ => rfl⟩

section Reassembler

theorem finish_done (e : Int) (acc : List Nat) (h : (acc.length : Int) = e) :
    _finish_async_response ⟨some e, acc⟩ = (⟨none, acc⟩, Except.ok (some acc)) := by
  unfold _finish_async_response
  dsimp only
  rw [if_pos h]

theorem finish_continue (e : Int) (acc : List Nat) (h : (acc.length : Int) < e) :
    _finish_async_response ⟨some e, acc⟩ = (⟨some e, acc⟩, Except.ok none) := by
  unfold _finish_async_response
  dsimp only
  rw [if_neg (by omega), if_neg (by omega)]

theorem handle_continuation (k : Nat) (e : Int) (acc recv : List Nat) :
    _handle_async_response k ⟨some e, acc⟩ recv
      = _finish_async_response ⟨some e, acc ++ recv⟩ := rfl

theorem feedFragments_cons_ok (k : Nat) (st st2 st3 : ReassemblerState)
    (f : List Nat) (fs : List (List Nat)) (out : Option (List Nat))
    (outs : List (Option (List Nat)))
    (h : _handle_async_response k st f = (st2, Except.ok out))
    (h2 : feedFragments k st2 fs = (st3, Except.ok outs)) :
    feedFragments k st (f :: fs) = (st3, Except.ok (out :: outs)) := by
  simp only [feedFragments, h]
  rw [h2]

/-- Feeding continuation fragments to an accumulating reassembler: as long
as every proper prefix of the fragments leaves the byte count strictly
below the expected count and the whole list reaches it exactly, each
fragment but the last yields no payload and the last yields the completed
concatenation, with the expected count cleared. -/
theorem feedFragments_continuations (k : Nat) (e : Int) :
    ∀ (conts : List (List Nat)) (acc : List Nat), conts ≠ [] →
      (∀ i, i < conts.length →
        ((acc.length + ((conts.take i).map List.length).sum : Nat) : Int) < e) →
      ((acc.length + ((conts.map List.length).sum : Nat) : Nat) : Int) = e →
      feedFragments k ⟨some e, acc⟩ conts
        = (⟨none, acc ++ conts.flatten⟩,
            Except.ok (List.replicate (conts.length - 1) none
              ++ [some (acc ++ conts.flatten)])) := by
  intro conts
  induction conts with
  | nil => intro acc hne _ _; exact absurd rfl hne
  | cons c cs ih =>
    intro acc _ hpre htot
    rcases eq_or_ne cs ([] : List (List Nat)) with hcs | hcs
    · subst hcs
      have hdone : (((acc ++ c).length : Nat) : Int) = e := by
        simp only [List.map_cons, List.map_nil, List.sum_cons, List.sum_nil,
          List.length_append] at htot ⊢
        push_cast at htot ⊢
        omega
      have hstep : _handle_async_response k ⟨some e, acc⟩ c
          = (⟨none, acc ++ c⟩, Except.ok (some (acc ++ c))) := by
        rw [handle_continuation, finish_done e (acc ++ c) hdone]
      rw [feedFragments_cons_ok k ⟨some e, acc⟩ ⟨none, acc ++ c⟩ ⟨none, acc ++ c⟩
        c [] (some (acc ++ c)) [] hstep rfl]
      simp
    · have hlt : (((acc ++ c).length : Nat) : Int) < e := by
        have h1 := hpre 1 (by
          cases cs with
          | nil => exact absurd rfl hcs
          | cons _ _ => simp)
        simp only [List.take_succ_cons, List.take_zero, List.map_cons, List.map_nil,
          List.sum_cons, List.sum_nil, List.length_append] at h1 ⊢
        push_cast at h1 ⊢
        omega
      have hstep : _handle_async_response k ⟨some e, acc⟩ c
          = (⟨some e, acc ++ c⟩, Except.ok none) := by
        rw [handle_continuation, finish_continue e (acc ++ c) hlt]
      have hpre' : ∀ i, i < cs.length →
          (((acc ++ c).length + ((cs.take i).map List.length).sum : Nat) : Int) < e := by
        intro i hi
        have h2 := hpre (i + 1) (by simpa using Nat.succ_lt_succ hi)
        simp only [List.take_succ_cons, List.map_cons, List.sum_cons,
          List.length_append] at h2 ⊢
        push_cast at h2 ⊢
        omega
      have htot' : (((acc ++ c).length + ((cs.map List.length).sum : Nat) : Nat) : Int) = e := by
        simp only [List.map_cons, List.sum_cons, List.length_append] at htot ⊢
        push_cast at htot ⊢
        omega
      have hrec := ih (acc ++ c) hcs hpre' htot'
      rw [feedFragments_cons_ok k ⟨some e, acc⟩ ⟨some e, acc ++ c⟩
        ⟨none, (acc ++ c) ++ cs.flatten⟩ c cs none
        (List.replicate (cs.length - 1) none ++ [some ((acc ++ c) ++ cs.flatten)])
        hstep hrec]
      have hlen : 1 ≤ cs.length := by
        cases cs with
        | nil => exact absurd rfl hcs
        | cons _ _ => simp
      have hrep : List.replicate ((c :: cs).length - 1) (none : Option (List Nat))
          = none :: List.replicate (cs.length - 1) none := by
        simp only [List.length_cons, Nat.add_sub_cancel]
        cases cs with
        | nil => exact absurd rfl hcs
        | cons x xs => simp [List.replicate_succ]
      rw [hrep]
      simp [List.append_assoc]

theorem parse_initial_eval (L k : Nat) (d0 : List Nat) :
    _parse_initial_async_response (0xfe :: 0xea :: 0x10 :: L :: k :: d0)
      = Except.ok (k, (L : Int) - 4 - 1, d0) := rfl

theorem handle_initial_eval (L k : Nat) (d0 : List Nat) :
    _handle_async_response k ⟨none, []⟩ (0xfe :: 0xea :: 0x10 :: L :: k :: d0)
      = _finish_async_response ⟨some ((L : Int) - 4 - 1), d0⟩ := by
  unfold _handle_async_response
  rw [parse_initial_eval]
  dsimp only
  rw [if_pos rfl]

/-- C1: an Idle reassembler fed a first fragment with header `fe ea 10 L`
(declaring `N = L - 4` payload bytes, one of which is the command key)
followed by headerless continuation fragments appends each continuation to
the buffer, returns no payload while the accumulated count is below
`N - 1`, and once the data portions total exactly `N - 1` bytes returns the
completed payload — the first fragment's bytes after header and command key
concatenated with all continuation bytes — clearing the expected count. -/
theorem reassembly_completeness (L k : Nat) (d0 : List Nat)
    (conts : List (List Nat)) (_hL255 : L ≤ 255)
    (htot : ((d0.length + ((conts.map List.length).sum : Nat) : Nat) : Int)
      = (L : Int) - 5)
    (hpre : ∀ i, i < conts.length →
      ((d0.length + ((conts.take i).map List.length).sum : Nat) : Int)
        < (L : Int) - 5) :
    feedFragments k ⟨none, []⟩ ((0xfe :: 0xea :: 0x10 :: L :: k :: d0) :: conts)
      = (⟨none, d0 ++ conts.flatten⟩,
          Except.ok (List.replicate conts.length none
            ++ [some (d0 ++ conts.flatten)])) := by
  have he : (L : Int) - 4 - 1 = (L : Int) - 5 := by ring
  rcases eq_or_ne conts ([] : List (List Nat)) with hc | hc
  · subst hc
    simp only [List.map_nil, List.sum_nil, Nat.add_zero] at htot
    have hstep : _handle_async_response k ⟨none, []⟩
        (0xfe :: 0xea :: 0x10 :: L :: k :: d0) = (⟨none, d0⟩, Except.ok (some d0)) := by
      rw [handle_initial_eval, he, finish_done _ _ htot]
    rw [feedFragments_cons_ok k ⟨none, []⟩ ⟨none, d0⟩ ⟨none, d0⟩ _ [] (some d0) []
      hstep rfl]
    simp
  · have h0 := hpre 0 (by
      cases conts with
      | nil => exact absurd rfl hc
      | cons _ _ => simp)
    simp only [List.take_zero, List.map_nil, List.sum_nil, Nat.add_zero] at h0
    have hstep : _handle_async_response k ⟨none, []⟩
        (0xfe :: 0xea :: 0x10 :: L :: k :: d0)
        = (⟨some ((L : Int) - 5), d0⟩, Except.ok none) := by
      rw [handle_initial_eval, he, finish_continue _ _ h0]
    have hrec := feedFragments_continuations k ((L : Int) - 5) conts d0 hc hpre htot
    rw [feedFragments_cons_ok k ⟨none, []⟩ ⟨some ((L : Int) - 5), d0⟩
      ⟨none, d0 ++ conts.flatten⟩ _ conts none
      (List.replicate (conts.length - 1) none ++ [some (d0 ++ conts.flatten)])
      hstep hrec]
    have hrep : List.replicate conts.length (none : Option (List Nat))
        = none :: List.replicate (conts.length - 1) none := by
      cases conts with
      | nil => exact absurd rfl hc
      | cons _ _ => simp [List.replicate_succ]
    rw [hrep, List.cons_append]

/-- Witness for C1: `fe ea 10 09 16 00 00` then continuations `0b` and
`b8`: the header declares 5 payload bytes, so 4 data bytes complete. -/
theorem reassembly_completeness_witness :
    (9 : Nat) ≤ 255 ∧
    ((([0, 0] : List Nat).length
        + ((([[0x0b], [0xb8]] : List (List Nat)).map List.length).sum : Nat) : Nat) : Int)
      = ((9 : Nat) : Int) - 5 ∧
    (∀ i, i < ([[0x0b], [0xb8]] : List (List Nat)).length →
      ((([0, 0] : List Nat).length
          + ((([[0x0b], [0xb8]] : List (List Nat)).take i).map List.length).sum : Nat) : Int)
        < ((9 : Nat) : Int) - 5) ∧
    feedFragments 0x16 ⟨none, []⟩
        ((0xfe :: 0xea :: 0x10 :: 9 :: 0x16 :: [0, 0]) :: [[0x0b], [0xb8]])
      = (⟨none, [0, 0] ++ ([[0x0b], [0xb8]] : List (List Nat)).flatten⟩,
          Except.ok (List.replicate ([[0x0b], [0xb8]] : List (List Nat)).length none
            ++ [some ([0, 0] ++ ([[0x0b], [0xb8]] : List (List Nat)).flatten)])) :=
  ⟨by decide, by decide, by decide,
    reassembly_completeness 9 0x16 [0, 0] [[0x0b], [0xb8]] (by decide) (by decide)
      (by decide)⟩

/-- C4: while a response is being accumulated, a fragment that pushes the
accumulated byte count strictly past the expected count makes the
reassembler raise `WatchError("Received more bytes than expected")` instead
of returning a payload. -/
theorem overrun_raises (k : Nat) (st : ReassemblerState) (recv : List Nat)
    (e : Int) (hst : st.expected = some e)
    (hover : e < ((st.acc.length + recv.length : Nat) : Int)) :
    (_handle_async_response k st recv).2
      = Except.error WatchErr.moreBytesThanExpected := by
  rcases st with ⟨exp, acc⟩
  simp only at hst
  subst hst
  simp only [List.length_append] at hover
  show (_finish_async_response ⟨some e, acc ++ recv⟩).2 = _
  unfold _finish_async_response
  dsimp only
  rw [if_neg (by simp only [List.length_append]; push_cast at hover ⊢; omega),
    if_pos (by simp only [List.length_append]; push_cast at hover ⊢; omega)]

/-- Witness for C4: expecting 1 byte with an empty buffer, a 2-byte fragment
overruns. -/
theorem overrun_raises_witness :
    (ReassemblerState.mk (some 1) []).expected = some 1 ∧
    (1 : Int) < (((ReassemblerState.mk (some 1) []).acc.length
        + ([0, 0] : List Nat).length : Nat) : Int) ∧
    (_handle_async_response 0 (ReassemblerState.mk (some 1) []) [0, 0]).2
      = Except.error WatchErr.moreBytesThanExpected :=
  ⟨by decide, by decide,
    overrun_raises 0 (ReassemblerState.mk (some 1) []) [0, 0] 1 (by decide) (by decide)⟩

/-- C5 counterexample: at the overrun error the reassembler's state is NOT
reset — the expected byte count stays `some 1` and the buffer keeps the
appended bytes, contradicting the claimed reset to Idle before the error
propagates. -/
theorem overrun_state_counterexample :
    (_handle_async_response 0 (ReassemblerState.mk (some 1) []) [0, 0]).2
      = Except.error WatchErr.moreBytesThanExpected ∧
    (_handle_async_response 0 (ReassemblerState.mk (some 1) []) [0, 0]).1.expected
      = some 1 ∧
    (_handle_async_response 0 (ReassemblerState.mk (some 1) []) [0, 0]).1.acc
      = [0, 0] :=
  ⟨rfl, rfl, rfl⟩

/-- C5 (amended): when the byte-count-overrun protocol error is raised, the
state is left in Accumulating rather than reset: the expected byte count
remains set and the buffer retains the appended fragment, so the next
fragment is treated as a continuation rather than a fresh header. -/
theorem overrun_leaves_state_accumulating (k : Nat) (st : ReassemblerState)
    (recv : List Nat) (e : Int) (hst : st.expected = some e)
    (hover : e < ((st.acc.length + recv.length : Nat) : Int)) :
    _handle_async_response k st recv
      = ({ expected := some e, acc := st.acc ++ recv },
          Except.error WatchErr.moreBytesThanExpected) := by
  rcases st with ⟨exp, acc⟩
  simp only at hst
  subst hst
  simp only [List.length_append] at hover
  show _finish_async_response ⟨some e, acc ++ recv⟩ = _
  unfold _finish_async_response
  dsimp only
  rw [if_neg (by simp only [List.length_append]; push_cast at hover ⊢; omega),
    if_pos (by simp only [List.length_append]; push_cast at hover ⊢; omega)]

/-- Witness for C5 (amended) at the same concrete overrun input. -/
theorem overrun_leaves_state_accumulating_witness :
    (ReassemblerState.mk (some 1) []).expected = some 1 ∧
    (1 : Int) < (((ReassemblerState.mk (some 1) []).acc.length
        + ([0, 0] : List Nat).length : Nat) : Int) ∧
    _handle_async_response 0 (ReassemblerState.mk (some 1) []) [0, 0]
      = ({ expected := some 1, acc := [] ++ [0, 0] },
          Except.error WatchErr.moreBytesThanExpected) :=
  ⟨by decide, by decide,
    overrun_leaves_state_accumulating 0 (ReassemblerState.mk (some 1) []) [0, 0] 1
      (by decide) (by decide)⟩

/-- C6: a fragment arriving while the reassembler is Idle whose first three
bytes are not the magic `fe ea 10` makes the reassembler raise `WatchError`
rather than start an accumulation (the state is unchanged). -/
theorem idle_bad_magic_raises (k : Nat) (st : ReassemblerState)
    (recv : List Nat) (hst : st.expected = none)
    (hm : recv.take 3 ≠ magicBytes) :
    _handle_async_response k st recv = (st, Except.error WatchErr.badHeader) := by
  rcases st with ⟨exp, acc⟩
  simp only at hst
  subst hst
  unfold _handle_async_response _parse_initial_async_response _check_and_parse_header
  rw [if_pos hm]

/-- Witness for C6: an all-zero continuation-shaped fragment in Idle. -/
theorem idle_bad_magic_raises_witness :
    (ReassemblerState.mk none []).expected = none ∧
    ([0, 0, 0, 0] : List Nat).take 3 ≠ magicBytes ∧
    _handle_async_response 0 (ReassemblerState.mk none []) [0, 0, 0, 0]
      = (ReassemblerState.mk none [], Except.error WatchErr.badHeader) :=
  ⟨by decide, by decide,
    idle_bad_magic_raises 0 (ReassemblerState.mk none []) [0, 0, 0, 0] (by decide)
      (by decide)⟩

end Reassembler

section AlarmDays

/-- C10: parsing a 7-bit repeat-days bitmask into its tuple of abbreviated
day names and re-encoding the tuple yields the bitmask back for every
`x ≤ 127`; the encoder accepts any casing whose lowercase form matches a
day abbreviation (mapping it to that day's bit), and returns `WatchError`
(`none`) for a name whose lowercase form is not among the seven. -/
theorem alarm_repeat_days_roundtrip :
    (∀ x, x ≤ 127 →
      _make_alarm_repeat_days_int (_parse_alarm_repeat_days x) = some x) ∧
    (∀ (s : String) (i : Nat), i < 7 → str_lower s = days_lower_tup.getD i "" →
      _make_alarm_repeat_days_int [s] = some (1 <<< i)) ∧
    (∀ s : String, str_lower s ∉ days_lower_tup →
      _make_alarm_repeat_days_int [s] = none) := by
  refine ⟨by decide, ?_, ?_⟩
  · intro s i hi h
    interval_cases i
    · have h' := h.trans (by decide : days_lower_tup.getD 0 "" = "sun")
      simp only [_make_alarm_repeat_days_int, List.foldlM, h']
      decide
    · have h' := h.trans (by decide : days_lower_tup.getD 1 "" = "mon")
      simp only [_make_alarm_repeat_days_int, List.foldlM, h']
      decide
    · have h' := h.trans (by decide : days_lower_tup.getD 2 "" = "tue")
      simp only [_make_alarm_repeat_days_int, List.foldlM, h']
      decide
    · have h' := h.trans (by decide : days_lower_tup.getD 3 "" = "wed")
      simp only [_make_alarm_repeat_days_int, List.foldlM, h']
      decide
    · have h' := h.trans (by decide : days_lower_tup.getD 4 "" = "thu")
      simp only [_make_alarm_repeat_days_int, List.foldlM, h']
      decide
    · have h' := h.trans (by decide : days_lower_tup.getD 5 "" = "fri")
      simp only [_make_alarm_repeat_days_int, List.foldlM, h']
      decide
    · have h' := h.trans (by decide : days_lower_tup.getD 6 "" = "sat")
      simp only [_make_alarm_repeat_days_int, List.foldlM, h']
      decide
  · intro s hs
    simp only [_make_alarm_repeat_days_int, List.foldlM]
    have hnone : days_lower_tup.findIdx? (fun d => d == str_lower s) = none := by
      rw [List.findIdx?_eq_none_iff]
      intro x hx
      simp only [beq_eq_false_iff_ne, ne_eq]
      intro heq
      exact hs (heq ▸ hx)
    rw [hnone]
    rfl

/-- Witness for C10 at the mask 73 (Sun, Wed, Sat), the uppercased name
"SUN", and the invalid name "Xyz". -/
theorem alarm_repeat_days_roundtrip_witness :
    _make_alarm_repeat_days_int (_parse_alarm_repeat_days 73) = some 73 ∧
    _make_alarm_repeat_days_int ["SUN"] = some (1 <<< 0) ∧
    _make_alarm_repeat_days_int ["Xyz"] = none :=
  ⟨alarm_repeat_days_roundtrip.1 73 (by decide),
    alarm_repeat_days_roundtrip.2.1 "SUN" 0 (by decide) (by decide),
    alarm_repeat_days_roundtrip.2.2 "Xyz" (by decide)⟩

end AlarmDays

end Uwatch2
